import Mathlib

/-!
Shallow embedding of the cbr-tram server core (`server/src/index.js`):
the GTFS-RT feed cache (`loadFeed`), the stop resolver (`loadStops`),
the CSV helpers (`parseCsvLine`, `stripQuotes`) and the arrival ranker
(`getNextArrivalsForStop`), together with theorems checking the
natural-language specification against this embedding.

Conventions: JavaScript numbers appearing as epoch times or timestamps
are `Int`; raw protobuf bytes are abstracted as `List Nat`; nullable
values are `Option`; code that can throw is `Except String`.  The
external collaborators (HTTP fetch, protobuf decode, the stops.txt file
read) are passed in as explicit arguments: a fetch outcome
`Except String Bytes`, a decode function `Bytes → Except String FeedMessage`
and an optional file content `Option String` (`none` = read failed).
-/

namespace CbrTram

/-- Raw protobuf bytes (`Uint8Array`), abstracted. -/
abbrev Bytes := List Nat

/-- One `StopTimeUpdate` of a decoded TripUpdate: `stopId` (absent or a
string; the code treats the empty string like absent) and the arrival
time in epoch seconds (`stu.arrival?.time`, absent modelled as `none`;
the protobuf default `0` is kept as `some 0` and filtered by the code's
`!t` check). -/
structure StopTimeUpdate where
  stopId : Option String
  arrivalTime : Option Int
deriving DecidableEq

/-- The `trip` descriptor of a TripUpdate; only `directionId` is read. -/
structure TripDescriptor where
  directionId : Option Int
deriving DecidableEq

/-- A `TripUpdate`: optional trip descriptor and its stop-time updates. -/
structure TripUpdate where
  trip : Option TripDescriptor
  stopTimeUpdate : List StopTimeUpdate
deriving DecidableEq

/-- One feed entity; only the `tripUpdate` capability is relevant here. -/
structure Entity where
  tripUpdate : Option TripUpdate
deriving DecidableEq

/-- A decoded `FeedMessage`: the ordered entity list. -/
structure FeedMessage where
  entity : List Entity
deriving DecidableEq

/-- One derived arrival answer, as built at index.js lines 174-183. -/
structure Arrival where
  epochSeconds : Int
  secondsAway : Int
  source : String
  directionId : Option Int
deriving DecidableEq

/-- A stop as returned by the stop resolver. -/
structure Stop where
  id : String
  name : String
deriving DecidableEq

/-! ### Arrival ranker (`getNextArrivalsForStop`, index.js 147-190) -/

/-- ASCII upper-casing of one character, as `String.prototype.toUpperCase`
acts on the characters appearing in this repository's data. -/
def charUp (c : Char) : Char :=
  if 'a' ≤ c ∧ c ≤ 'z' then Char.ofNat (c.toNat - 32) else c

/-- `s.toUpperCase()` (character-wise). -/
def jsToUpper (s : String) : String := ⟨s.data.map charUp⟩

/-- ASCII lower-casing of one character (`String.prototype.toLowerCase`). -/
def charDown (c : Char) : Char :=
  if 'A' ≤ c ∧ c ≤ 'Z' then Char.ofNat (c.toNat + 32) else c

/-- `s.toLowerCase()` (character-wise). -/
def jsToLower (s : String) : String := ⟨s.data.map charDown⟩

/-- `const sid = stu.stopId || stu.stop_id; if (!sid) continue;` —
the empty string is falsy in JS, so it acts like an absent stop id. -/
def sidOf (stu : StopTimeUpdate) : Option String :=
  match stu.stopId with
  | none => none
  | some s => if s = "" then none else some s

/-- `entity.tripUpdate.trip?.directionId ?? ... ?? 'unknown'` — the JS
`Map` key; `none` models the `'unknown'` bucket. -/
def dirOf (tu : TripUpdate) : Option Int :=
  match tu.trip with
  | none => none
  | some t => t.directionId

/-- The per-StopTimeUpdate admission test of the loop body (index.js
165-169): stop id present (non-falsy) and matching the query
case-insensitively, arrival time present, non-zero (`!t`) and not
strictly before `now`; returns the qualifying arrival epoch. -/
def stuQualifies (stopId : String) (now : Int) (stu : StopTimeUpdate) : Option Int :=
  match sidOf stu with
  | none => none
  | some sid =>
    if jsToUpper sid = jsToUpper stopId then
      match stu.arrivalTime with
      | none => none
      | some t => if t = 0 ∨ t < now then none else some t
    else none

/-- The `(directionId bucket, StopTimeUpdate)` pairs produced by one
entity: nothing without a `tripUpdate`, else its stop-time updates each
paired with the entity's direction bucket. -/
def entityPairs (e : Entity) : List (Option Int × StopTimeUpdate) :=
  match e.tripUpdate with
  | none => []
  | some tu => tu.stopTimeUpdate.map (fun stu => (dirOf tu, stu))

/-- All `(bucket, StopTimeUpdate)` pairs of the feed, in iteration
order of the nested `for` loops. -/
def feedPairs (f : FeedMessage) : List (Option Int × StopTimeUpdate) :=
  f.entity.foldr (fun e acc => entityPairs e ++ acc) []

/-- `bestByDir.get(dir)` on the insertion-ordered association list. -/
def mapGet (m : List (Option Int × Int)) (k : Option Int) : Option Int :=
  match m with
  | [] => none
  | (k', v) :: rest => if k' = k then some v else mapGet rest k

/-- `bestByDir.set(dir, t)`: JS `Map.set` keeps the insertion position
of an existing key and appends a new key at the end. -/
def mapSet (m : List (Option Int × Int)) (k : Option Int) (v : Int) : List (Option Int × Int) :=
  match m with
  | [] => [(k, v)]
  | (k', v') :: rest => if k' = k then (k, v) :: rest else (k', v') :: mapSet rest k v

/-- One iteration of the loop body: on a qualifying time `t`, keep it
when the bucket is empty (`!prev`, which is also true of a stored `0`)
or `t < prev`. -/
def bestStep (stopId : String) (now : Int) (m : List (Option Int × Int))
    (p : Option Int × StopTimeUpdate) : List (Option Int × Int) :=
  match stuQualifies stopId now p.2 with
  | none => m
  | some t =>
    match mapGet m p.1 with
    | none => mapSet m p.1 t
    | some prev => if prev = 0 ∨ t < prev then mapSet m p.1 t else m

/-- The `bestByDir` map after the nested loops (index.js 160-173). -/
def bestByDir (f : FeedMessage) (stopId : String) (now : Int) : List (Option Int × Int) :=
  (feedPairs f).foldl (bestStep stopId now) []

/-- Stable insertion of an arrival into a list sorted by `secondsAway`,
placing it after all existing entries with a key that is not larger:
this reproduces the stable JS `Array.prototype.sort` with comparator
`(a,b) => a.secondsAway - b.secondsAway`. -/
def insertByWait (a : Arrival) : List Arrival → List Arrival
  | [] => [a]
  | b :: bs => if a.secondsAway < b.secondsAway then a :: b :: bs else b :: insertByWait a bs

/-- Stable sort by `secondsAway` (stable left fold of insertions). -/
def sortByWait (l : List Arrival) : List Arrival :=
  l.foldl (fun acc a => insertByWait a acc) []

/-- The Arrival record built for one map entry (index.js 175-180). -/
def mkArrival (now : Int) (p : Option Int × Int) : Arrival :=
  { epochSeconds := p.2
    secondsAway := p.2 - now
    source := "realtime"
    directionId := p.1 }

/-- `getNextArrivalsForStop`'s body after a non-null feed was obtained:
the TripUpdates presence check, the bucket map, then
`.map(...).filter(x => x.secondsAway >= 0).sort(...).slice(0,2)`
(and `if (list.length === 0) return []`, an identity). -/
def rankArrivals (f : FeedMessage) (stopId : String) (now : Int) : List Arrival :=
  if f.entity.any (fun e => e.tripUpdate.isSome) then
    (sortByWait (((bestByDir f stopId now).map (mkArrival now)).filter
      (fun x => decide (0 ≤ x.secondsAway)))).take 2
  else []

/-- The `try` block of `getNextArrivalsForStop`: obtain the feed (whose
acquisition may throw), return `[]` on a null feed, else rank.  The
feed-cache interaction is abstracted into the `Except`-valued outcome
of the `loadFeed()` call. -/
def innerArrivals (feedRes : Except String (Option FeedMessage)) (stopId : String)
    (now : Int) : Except String (List Arrival) :=
  match feedRes with
  | .error e => .error e
  | .ok none => .ok []
  | .ok (some f) => .ok (rankArrivals f stopId now)

/-- The whole `getNextArrivalsForStop`, `catch` included: any raised
error becomes the empty list (index.js 186-189). -/
def getNextArrivalsForStop (feedRes : Except String (Option FeedMessage)) (stopId : String)
    (now : Int) : List Arrival :=
  match innerArrivals feedRes stopId now with
  | .ok l => l
  | .error _ => []

/-- The whole `getNextArrivalsForStop` rendered with its thrown-error
channel explicit: the `try` body may raise (through `loadFeed`), and the
`catch` turns any raised error into a normal `[]` return, so the result
is always an `ok`. -/
def getNextArrivalsForStopE (feedRes : Except String (Option FeedMessage)) (stopId : String)
    (now : Int) : Except String (List Arrival) :=
  match innerArrivals feedRes stopId now with
  | .ok l => .ok l
  | .error _ => .ok []

/-! ### Feed cache (`loadFeed`, index.js 31-54, and `POST /api/refresh`,
index.js 193-201) -/

/-- The module-level mutable feed cache: `feedCache` (decoded message),
`feedCacheTs` (timestamp, ms) and `feedCacheRaw` (raw bytes). -/
structure FeedState where
  feedCache : Option FeedMessage
  feedCacheTs : Int
  feedCacheRaw : Option Bytes
deriving DecidableEq

/-- One sequential (uninterleaved) run of `loadFeed`: no URL returns
`null`; a fresh cache is served as-is; otherwise fetch (outcome given
as `fetchRes`), store the raw bytes, decode (the decoder is `decode`),
and on success install message and timestamp.  Note the source's order:
`feedCacheRaw` is assigned *before* `FeedMessage.decode` runs, so a
decode error leaves the new raw bytes behind with the old message. -/
def loadFeedOnce (url : Option String) (ttl now : Int) (fetchRes : Except String Bytes)
    (decode : Bytes → Except String FeedMessage) (s : FeedState) :
    Except String (Option FeedMessage) × FeedState :=
  match url with
  | none => (.ok none, s)
  | some _ =>
    match s.feedCache with
    | some m =>
      if now - s.feedCacheTs < ttl then (.ok (some m), s)
      else
        match fetchRes with
        | .error e => (.error e, s)
        | .ok bytes =>
          match decode bytes with
          | .error e => (.error e, { s with feedCacheRaw := some bytes })
          | .ok msg =>
            (.ok (some msg), { feedCache := some msg, feedCacheTs := now, feedCacheRaw := some bytes })
    | none =>
      match fetchRes with
      | .error e => (.error e, s)
      | .ok bytes =>
        match decode bytes with
        | .error e => (.error e, { s with feedCacheRaw := some bytes })
        | .ok msg =>
          (.ok (some msg), { feedCache := some msg, feedCacheTs := now, feedCacheRaw := some bytes })

/-- The `POST /api/refresh` handler: destructively clears `feedCache`
and `feedCacheTs`, then runs `loadFeed` and reports success or failure. -/
def refreshHandler (url : Option String) (ttl now : Int) (fetchRes : Except String Bytes)
    (decode : Bytes → Except String FeedMessage) (s : FeedState) : Bool × FeedState :=
  match loadFeedOnce url ttl now fetchRes decode
      { s with feedCache := none, feedCacheTs := 0 } with
  | (.ok _, s2) => (true, s2)
  | (.error _, s2) => (false, s2)

/-- A decoder used by concrete counterexamples: it rejects every byte
string (a structurally invalid payload). -/
def decodeFail (_b : Bytes) : Except String FeedMessage :=
  .error "decode failure"

/-! ### Concurrency model of `loadFeed` (C1)

`loadFeed` is an `async` function on the Node event loop: the statements
up to `await fetch(...)` run atomically, the fetch is issued when that
expression is reached, and the continuation (lines 39-53) runs when it
resolves.  A caller is modelled as a thread with a program counter:
`start` (about to run lines 32-37 and issue the fetch), `awaitFetch`
(fetch issued, continuation pending), or `done`.  The global state is
the shared feed cache plus a counter of upstream fetches issued. -/

/-- Program counter of one in-flight `loadFeed` caller. -/
inductive ThreadPC where
  | start
  | awaitFetch
  | done (r : Except String (Option FeedMessage))

/-- The environment a `loadFeed` run reads: configured URL, TTL, clock,
the upstream fetch outcome and the decoder. -/
structure LoadEnv where
  url : Option String
  ttl : Int
  now : Int
  fetchRes : Except String Bytes
  decode : Bytes → Except String FeedMessage

/-- One event-loop turn of a caller: from `start`, return null (no URL)
or the fresh cache, else issue the fetch (incrementing the fetch count)
and suspend; from `awaitFetch`, run the continuation — on fetch failure
raise, else store the raw bytes, decode, and on success install the
snapshot. -/
def stepThread (env : LoadEnv) (st : FeedState) (cnt : Nat) :
    ThreadPC → ThreadPC × FeedState × Nat
  | .start =>
    match env.url with
    | none => (.done (.ok none), st, cnt)
    | some _ =>
      match st.feedCache with
      | some m =>
        if env.now - st.feedCacheTs < env.ttl then (.done (.ok (some m)), st, cnt)
        else (.awaitFetch, st, cnt + 1)
      | none => (.awaitFetch, st, cnt + 1)
  | .awaitFetch =>
    match env.fetchRes with
    | .error e => (.done (.error e), st, cnt)
    | .ok bytes =>
      match env.decode bytes with
      | .error e => (.done (.error e), { st with feedCacheRaw := some bytes }, cnt)
      | .ok m => (.done (.ok (some m)), ⟨some m, env.now, some bytes⟩, cnt)
  | .done r => (.done r, st, cnt)

/-- Global configuration: shared cache, fetch counter, thread table. -/
structure Sys where
  st : FeedState
  fetchCount : Nat
  threads : List ThreadPC

/-- Run one event-loop turn of thread `i` (no-op on a bad index). -/
def stepAt (env : LoadEnv) (sys : Sys) (i : Nat) : Sys :=
  match sys.threads.get? i with
  | none => sys
  | some pc =>
    let r := stepThread env sys.st sys.fetchCount pc
    { st := r.2.1, fetchCount := r.2.2, threads := sys.threads.set i r.1 }

/-- Run a whole schedule (a list of thread indices) from a configuration. -/
def runSched (env : LoadEnv) (sched : List Nat) (sys : Sys) : Sys :=
  sched.foldl (stepAt env) sys

/-- Whether a thread has not yet run its first turn. -/
def isStart : ThreadPC → Bool
  | .start => true
  | _ => false

/-- Whether a thread has returned. -/
def isDone : ThreadPC → Bool
  | .done _ => true
  | _ => false

/-- Fetch count plus the number of threads still at their entry point:
every event-loop turn leaves this measure non-increasing. -/
def muSys (sys : Sys) : Nat :=
  sys.fetchCount + sys.threads.countP isStart

/-! ### CSV helpers (`stripQuotes`, `parseCsvLine`, index.js 121-143) -/

/-- Drop one trailing double quote, if present. -/
def dropTrailingQuote (l : List Char) : List Char :=
  if l.getLast? = some '\x22' then l.dropLast else l

/-- Drop one leading double quote, if present. -/
def dropLeadingQuote (l : List Char) : List Char :=
  match l with
  | '\x22' :: rest => rest
  | _ => l

/-- `s.replace(/^"|"$/g, '')`: remove one surrounding quote on each
side (the global regex matches a leading `"` and a trailing `"`). -/
def stripQuotes (s : String) : String :=
  ⟨dropTrailingQuote (dropLeadingQuote s.data)⟩

/-- The character loop of `parseCsvLine`: `inQ` is the in-quotes flag,
`cur` the current field, `out` the fields already emitted.  A quote
inside quotes doubles to a literal quote; a comma outside quotes ends
the field; everything else is appended. -/
def parseCsvAux : List Char → Bool → List Char → List (List Char) → List (List Char)
  | [], _, cur, out => out ++ [cur]
  | '\x22' :: '\x22' :: rest, true, cur, out => parseCsvAux rest true (cur ++ ['\x22']) out
  | '\x22' :: rest, true, cur, out => parseCsvAux rest false cur out
  | '\x22' :: rest, false, cur, out => parseCsvAux rest true cur out
  | ',' :: rest, true, cur, out => parseCsvAux rest true (cur ++ [',']) out
  | ',' :: rest, false, _cur, out => parseCsvAux rest false [] (out ++ [_cur])
  | c :: rest, inQ, cur, out => parseCsvAux rest inQ (cur ++ [c]) out

/-- `parseCsvLine(line)`. -/
def parseCsvLine (line : String) : List String :=
  (parseCsvAux line.data false [] []).map (fun l => ⟨l⟩)

/-! ### Stop resolver (`loadStops`, index.js 73-119) -/

/-- The hardcoded fallback stop list (index.js 58-71). -/
def fallbackStops : List Stop :=
  [⟨"GUNGAHLIN_PLACE", "Gungahlin Place"⟩,
   ⟨"MANNING_CLARK", "Manning Clark North"⟩,
   ⟨"KAVANAGH", "Kavanagh Street"⟩,
   ⟨"WIMMERA", "Well Station Drive"⟩,
   ⟨"SANDY", "Sandon Street"⟩,
   ⟨"EPIC", "EPIC and Racecourse"⟩,
   ⟨"SWINDEN", "Swinden Street"⟩,
   ⟨"DICKSON_INTERCHANGE", "Dickson Interchange"⟩,
   ⟨"MACARTHUR", "Macarthur Avenue"⟩,
   ⟨"IPIMA", "Ipima Street"⟩,
   ⟨"ELDER", "Elouera Street"⟩,
   ⟨"ALINGA", "Alinga Street"⟩]

/-- Split on `'\n'` (one piece per line, keeping a final empty piece). -/
def splitOnNewline : List Char → List (List Char)
  | [] => [[]]
  | '\n' :: rest => [] :: splitOnNewline rest
  | c :: rest =>
    match splitOnNewline rest with
    | [] => [[c]]
    | l :: ls => (c :: l) :: ls

/-- Remove the `'\r'` left at a piece's end by a CRLF line break. -/
def stripCR (l : List Char) : List Char :=
  if l.getLast? = some '\r' then l.dropLast else l

/-- `csv.split(/\r?\n/).filter(Boolean)`: split into lines and drop the
empty ones. -/
def splitFeedLines (csv : String) : List String :=
  (((splitOnNewline csv.data).map stripCR).filter (fun l => decide (l ≠ []))).map (fun l => ⟨l⟩)

/-- Whether the first list begins the second (the JS
`String.prototype.startsWith` test, with the pattern first). -/
def listStartsWith : List Char → List Char → Bool
  | [], _ => true
  | _ :: _, [] => false
  | a :: as, b :: bs => a == b && listStartsWith as bs

/-- Tier 1 of the cascade: parse the static stops.txt content.  The
header must start with `stop_id` (lower-cased), rows need ≥ 6 fields,
platform rows are those whose sixth field (`location_type`), quotes
stripped, equals `"0"`; they map to `{id, name}` from fields 0 and 1.
Every fall-through (no lines, wrong header, no platform rows) yields
`[]`. -/
def staticTier (csv : String) : List Stop :=
  match splitFeedLines csv with
  | [] => []
  | header :: rest =>
    if listStartsWith "stop_id".data (jsToLower header).data then
      let rows := (rest.map parseCsvLine).filter (fun r => decide (6 ≤ r.length))
      (rows.filter (fun r => decide (stripQuotes (r.getD 5 "0") = "0"))).map
        (fun r => ⟨stripQuotes (r.getD 0 ""), stripQuotes (r.getD 1 "")⟩)
    else []

/-- The distinct stop ids referenced by TripUpdates' StopTimeUpdates,
in first-occurrence order (the JS `Set` insertion order). -/
def collectStopIds (f : FeedMessage) : List String :=
  f.entity.foldl
    (fun acc e =>
      match e.tripUpdate with
      | none => acc
      | some tu =>
        tu.stopTimeUpdate.foldl
          (fun acc2 stu =>
            match sidOf stu with
            | none => acc2
            | some sid => if sid ∈ acc2 then acc2 else acc2 ++ [sid]) acc) []

/-- Lexicographic (code-point) comparison of character lists, the JS
default sort order for strings: `true` when the first is less than or
equal to the second. -/
def charListLe : List Char → List Char → Bool
  | [], _ => true
  | _ :: _, [] => false
  | a :: as, b :: bs => if a < b then true else if b < a then false else charListLe as bs

/-- Lexicographic (code-point) string comparison. -/
def strLeB (a b : String) : Bool :=
  charListLe a.data b.data

/-- Stable insertion for the string sort. -/
def insertStr (a : String) : List String → List String
  | [] => [a]
  | b :: bs => if strLeB b a then b :: insertStr a bs else a :: b :: bs

/-- `Array.from(set).sort()`. -/
def sortStrings (l : List String) : List String :=
  l.foldl (fun acc a => insertStr a acc) []

/-- Tier 2 of the cascade: distinct stop ids of the feed, sorted, each
mapped to `{id, name: id}`. -/
def feedTier (f : FeedMessage) : List Stop :=
  (sortStrings (collectStopIds f)).map (fun id => ⟨id, id⟩)

/-- The rows tier 1 yields: a failed table read (`none`) acts as zero
rows (the `try`/`catch` around the file read). -/
def tier1 (table : Option String) : List Stop :=
  match table with
  | some csv => staticTier csv
  | none => []

/-- The rows tier 2 yields: a feed acquisition error (caught) or a null
feed acts as zero rows. -/
def tier2 (feedRes : Except String (Option FeedMessage)) : List Stop :=
  match feedRes with
  | .ok (some f) => feedTier f
  | _ => []

/-- The cascade body of `loadStops` (cache aside): the static table
when it yields rows, else the feed-derived list when non-empty, else
the fallback list. -/
def resolveStopsFresh (table : Option String)
    (feedRes : Except String (Option FeedMessage)) : List Stop :=
  if tier1 table ≠ [] then tier1 table
  else if tier2 feedRes ≠ [] then tier2 feedRes
  else fallbackStops

/-- `STOPS_TTL_MS = 24 * 60 * 60 * 1000`. -/
def STOPS_TTL_MS : Int := 24 * 60 * 60 * 1000

/-- The stops cache state (`stopsCache`, `stopsCacheTs`). -/
structure StopsState where
  stopsCache : Option (List Stop)
  stopsCacheTs : Int
deriving DecidableEq

/-- One sequential run of `loadStops`: serve a fresh cache, else run
the cascade and store its result with the timestamp read at entry. -/
def loadStopsOnce (table : Option String) (feedRes : Except String (Option FeedMessage))
    (now : Int) (s : StopsState) : List Stop × StopsState :=
  match s.stopsCache with
  | some l =>
    if now - s.stopsCacheTs < STOPS_TTL_MS then (l, s)
    else
      (resolveStopsFresh table feedRes, ⟨some (resolveStopsFresh table feedRes), now⟩)
  | none =>
    (resolveStopsFresh table feedRes, ⟨some (resolveStopsFresh table feedRes), now⟩)

/-! ### Specification-side views of the bucket map -/

/-- Selector of the qualifying arrival epoch a `(bucket, StopTimeUpdate)`
pair contributes to bucket `d`: its bucket must be `d` and the entry must
pass the loop's admission test. -/
def qualSel (stopId : String) (now : Int) (d : Option Int)
    (p : Option Int × StopTimeUpdate) : Option Int :=
  if p.1 = d then stuQualifies stopId now p.2 else none

/-- The qualifying arrival epochs contributed to bucket `d` by the feed,
in iteration order: entries of a TripUpdate in bucket `d` whose stop id
matches the query case-insensitively and whose arrival time is present,
non-zero and not strictly before `now`. -/
def qualTimes (f : FeedMessage) (stopId : String) (now : Int) (d : Option Int) : List Int :=
  (feedPairs f).filterMap (qualSel stopId now d)

/-- Minimum of a list of epochs, `none` on the empty list. -/
def minList : List Int → Option Int
  | [] => none
  | t :: ts => some (ts.foldl min t)

/-- Combine a previously stored bucket value with the minimum of later
contributions. -/
def combineMin : Option Int → Option Int → Option Int
  | none, b => b
  | some x, none => some x
  | some x, some y => some (min x y)

/-- All values stored in a bucket map are non-zero (true of every map
the loop builds, since `!t` filters zero arrival times out). -/
def NonzeroVals (m : List (Option Int × Int)) : Prop :=
  ∀ k v, mapGet m k = some v → v ≠ 0

/-- Spec §8 example: two TripUpdates for stop "S", direction 0 arriving
at epoch 1120 and direction 1 at epoch 1045 (now = 1000, so 120 s and
45 s away). -/
def feedEx1 : FeedMessage :=
  ⟨[⟨some ⟨some ⟨some 0⟩, [⟨some "S", some 1120⟩]⟩⟩,
    ⟨some ⟨some ⟨some 1⟩, [⟨some "S", some 1045⟩]⟩⟩]⟩

/-- Spec §8 example: the only StopTimeUpdate for stop "S" is 10 s in
the past (epoch 990 with now = 1000). -/
def feedEx2 : FeedMessage :=
  ⟨[⟨some ⟨some ⟨some 0⟩, [⟨some "S", some 990⟩]⟩⟩]⟩

/-- A decoder used by concrete witnesses: byte string `[1]` decodes to
`feedEx1`, anything else fails. -/
def decodeEx (b : Bytes) : Except String FeedMessage :=
  if b = [1] then .ok feedEx1 else .error "decode failure"

/-- Environment for the concurrency counterexample: URL configured,
fetch succeeds with bytes `[1]`, which decode to `feedEx1`. -/
def envEx : LoadEnv := ⟨some "u", 15000, 2000, .ok [1], decodeEx⟩

/-- Two concurrent callers on a cold (hence expired) cache. -/
def sysEx : Sys := ⟨⟨none, 0, none⟩, 0, [.start, .start]⟩

/-- A concrete stops.txt content with one platform row. -/
def csvEx : String :=
  "stop_id,stop_name,stop_lat,stop_lon,zone_id,location_type\n8129,\"Alinga Street\",-35.27,149.13,,0\n"

/-- A concrete feed referencing stop ids PLT2, plt1 and ALPHA in
TripUpdates (for stop-resolver witnesses). -/
def feedStops : FeedMessage :=
  ⟨[⟨some ⟨some ⟨some 0⟩, [⟨some "PLT2", some 1120⟩, ⟨some "plt1", some 1⟩]⟩⟩,
    ⟨none⟩,
    ⟨some ⟨none, [⟨some "PLT2", none⟩, ⟨some "ALPHA", some 5⟩]⟩⟩]⟩

/-! ### Sorting lemmas for the arrival ranker -/

lemma mem_insertByWait (a x : Arrival) (l : List Arrival) :
    x ∈ insertByWait a l ↔ x = a ∨ x ∈ l := by
  induction l with
  | nil => simp [insertByWait]
  | cons b bs ih =>
    simp only [insertByWait]
    by_cases h : a.secondsAway < b.secondsAway
    · rw [if_pos h]
      simp [List.mem_cons]
    · rw [if_neg h]
      simp only [List.mem_cons, ih]
      tauto

lemma sorted_insertByWait (a : Arrival) (l : List Arrival)
    (hl : l.Pairwise (fun x y => x.secondsAway ≤ y.secondsAway)) :
    (insertByWait a l).Pairwise (fun x y => x.secondsAway ≤ y.secondsAway) := by
  induction l with
  | nil => simp [insertByWait]
  | cons b bs ih =>
    rcases List.pairwise_cons.mp hl with ⟨hb, hbs⟩
    simp only [insertByWait]
    by_cases h : a.secondsAway < b.secondsAway
    · rw [if_pos h]
      refine List.pairwise_cons.mpr ⟨?_, hl⟩
      intro y hy
      rcases List.mem_cons.mp hy with rfl | hy'
      · exact le_of_lt h
      · exact le_trans (le_of_lt h) (hb y hy')
    · rw [if_neg h]
      refine List.pairwise_cons.mpr ⟨?_, ih hbs⟩
      intro y hy
      rcases (mem_insertByWait a y bs).mp hy with rfl | hy'
      · exact le_of_not_lt h
      · exact hb y hy'

lemma mem_foldl_insertByWait (l acc : List Arrival) (x : Arrival)
    (hx : x ∈ l.foldl (fun acc a => insertByWait a acc) acc) : x ∈ acc ∨ x ∈ l := by
  induction l generalizing acc with
  | nil => exact Or.inl hx
  | cons a as ih =>
    rcases ih (insertByWait a acc) hx with h1 | h2
    · rcases (mem_insertByWait a x acc).mp h1 with rfl | h
      · exact Or.inr (List.mem_cons_self _ _)
      · exact Or.inl h
    · exact Or.inr (List.mem_cons_of_mem _ h2)

lemma sorted_foldl_insertByWait (l acc : List Arrival)
    (hacc : acc.Pairwise (fun x y => x.secondsAway ≤ y.secondsAway)) :
    (l.foldl (fun acc a => insertByWait a acc) acc).Pairwise
      (fun x y => x.secondsAway ≤ y.secondsAway) := by
  induction l generalizing acc with
  | nil => exact hacc
  | cons a as ih => exact ih _ (sorted_insertByWait a acc hacc)

lemma sorted_sortByWait (l : List Arrival) :
    (sortByWait l).Pairwise (fun x y => x.secondsAway ≤ y.secondsAway) :=
  sorted_foldl_insertByWait l [] (List.Pairwise.nil)

lemma mem_sortByWait (x : Arrival) (l : List Arrival) (hx : x ∈ sortByWait l) : x ∈ l := by
  rcases mem_foldl_insertByWait l [] x hx with h | h
  · cases h
  · exact h

lemma rankArrivals_shape (f : FeedMessage) (stopId : String) (now : Int) :
    (rankArrivals f stopId now).length ≤ 2 ∧
    (rankArrivals f stopId now).Pairwise (fun a b => a.secondsAway ≤ b.secondsAway) ∧
    ∀ a ∈ rankArrivals f stopId now, 0 ≤ a.secondsAway := by
  unfold rankArrivals
  by_cases h : f.entity.any (fun e => e.tripUpdate.isSome)
  · rw [if_pos h]
    refine ⟨?_, ?_, ?_⟩
    · rw [List.length_take]
      exact min_le_left _ _
    · exact (sorted_sortByWait _).sublist (List.take_sublist _ _)
    · intro a ha
      have h1 : a ∈ sortByWait (((bestByDir f stopId now).map (mkArrival now)).filter
          (fun x => decide (0 ≤ x.secondsAway))) := (List.take_sublist _ _).mem ha
      have h2 := mem_sortByWait _ _ h1
      exact of_decide_eq_true (List.mem_filter.mp h2).2
  · rw [if_neg h]
    simp

/-! ### Bucket-map lemmas -/

lemma mapGet_mapSet_self (m : List (Option Int × Int)) (k : Option Int) (v : Int) :
    mapGet (mapSet m k v) k = some v := by
  induction m with
  | nil => simp [mapSet, mapGet]
  | cons p rest ih =>
    by_cases h : p.1 = k
    · simp [mapSet, mapGet, h]
    · simp [mapSet, mapGet, h, ih]

lemma mapGet_mapSet_ne (m : List (Option Int × Int)) (k k' : Option Int) (v : Int)
    (h : k ≠ k') : mapGet (mapSet m k v) k' = mapGet m k' := by
  induction m with
  | nil => simp [mapSet, mapGet, h]
  | cons p rest ih =>
    by_cases hp : p.1 = k
    · simp only [mapSet, hp, if_pos rfl]
      simp [mapGet, h, hp]
    · simp [mapSet, mapGet, hp, ih]

lemma stuQualifies_some (stopId : String) (now : Int) (stu : StopTimeUpdate) (t : Int)
    (h : stuQualifies stopId now stu = some t) : t ≠ 0 ∧ now ≤ t := by
  unfold stuQualifies at h
  split at h
  · exact Option.noConfusion h
  · split at h
    · split at h
      · exact Option.noConfusion h
      · split at h
        · exact Option.noConfusion h
        · cases h
          rename_i hc
          push_neg at hc
          exact hc
    · exact Option.noConfusion h

lemma nonzero_mapSet (m : List (Option Int × Int)) (k : Option Int) (v : Int)
    (hm : NonzeroVals m) (hv : v ≠ 0) : NonzeroVals (mapSet m k v) := by
  intro k' v' h
  by_cases hk : k = k'
  · subst hk
    rw [mapGet_mapSet_self] at h
    cases h
    exact hv
  · rw [mapGet_mapSet_ne m k k' v hk] at h
    exact hm k' v' h

lemma nonzero_bestStep (stopId : String) (now : Int) (m : List (Option Int × Int))
    (p : Option Int × StopTimeUpdate) (hm : NonzeroVals m) :
    NonzeroVals (bestStep stopId now m p) := by
  unfold bestStep
  cases hq : stuQualifies stopId now p.2 with
  | none => exact hm
  | some t =>
    have ht := (stuQualifies_some stopId now p.2 t hq).1
    cases hg : mapGet m p.1 with
    | none => exact nonzero_mapSet m p.1 t hm ht
    | some prev =>
      dsimp only
      by_cases hc : prev = 0 ∨ t < prev
      · rw [if_pos hc]
        exact nonzero_mapSet m p.1 t hm ht
      · rw [if_neg hc]
        exact hm

lemma foldl_min_eq (t : Int) (q : List Int) :
    some (q.foldl min t) = combineMin (some t) (minList q) := by
  induction q generalizing t with
  | nil => rfl
  | cons a as ih =>
    simp only [List.foldl_cons]
    rw [ih (min t a)]
    have h2 : some (as.foldl min a) = combineMin (some a) (minList as) := ih a
    have h3 : minList (a :: as) = some (as.foldl min a) := rfl
    rw [h3]
    cases hm : minList as with
    | none =>
      rw [hm] at h2
      have h4 : as.foldl min a = a := by simpa [combineMin] using h2
      rw [h4]
      simp [combineMin]
    | some m =>
      rw [hm] at h2
      have h4 : as.foldl min a = min a m := by simpa [combineMin] using h2
      rw [h4]
      simp [combineMin, min_assoc]

lemma mapGet_bestStep_ne (stopId : String) (now : Int) (m : List (Option Int × Int))
    (p : Option Int × StopTimeUpdate) (d : Option Int) (hd : p.1 ≠ d) :
    mapGet (bestStep stopId now m p) d = mapGet m d := by
  unfold bestStep
  cases hq : stuQualifies stopId now p.2 with
  | none => rfl
  | some t =>
    cases hg : mapGet m p.1 with
    | none => exact mapGet_mapSet_ne m p.1 d t hd
    | some prev =>
      dsimp only
      by_cases hc : prev = 0 ∨ t < prev
      · rw [if_pos hc]
        exact mapGet_mapSet_ne m p.1 d t hd
      · rw [if_neg hc]

lemma mapGet_foldl_bestStep (stopId : String) (now : Int)
    (ps : List (Option Int × StopTimeUpdate)) :
    ∀ (m : List (Option Int × Int)), NonzeroVals m → ∀ d : Option Int,
      mapGet (ps.foldl (bestStep stopId now) m) d
        = combineMin (mapGet m d) (minList (ps.filterMap (qualSel stopId now d))) := by
  induction ps with
  | nil =>
    intro m _ d
    simp only [List.foldl_nil, List.filterMap_nil]
    cases hg : mapGet m d <;> rfl
  | cons p ps ih =>
    intro m hm d
    have hm' := nonzero_bestStep stopId now m p hm
    simp only [List.foldl_cons]
    rw [ih (bestStep stopId now m p) hm' d]
    cases hq : stuQualifies stopId now p.2 with
    | none =>
      have hb : bestStep stopId now m p = m := by
        unfold bestStep
        rw [hq]
      have hf : List.filterMap (qualSel stopId now d) (p :: ps)
          = ps.filterMap (qualSel stopId now d) := by
        have : qualSel stopId now d p = none := by
          unfold qualSel
          by_cases hd : p.1 = d
          · rw [if_pos hd, hq]
          · rw [if_neg hd]
        rw [List.filterMap_cons_none this]
      rw [hb, hf]
    | some t =>
      by_cases hd : p.1 = d
      · subst hd
        have hf : List.filterMap (qualSel stopId now p.1) (p :: ps)
            = t :: ps.filterMap (qualSel stopId now p.1) := by
          have : qualSel stopId now p.1 p = some t := by
            unfold qualSel
            rw [if_pos rfl, hq]
          rw [List.filterMap_cons_some this]
        rw [hf]
        have hmin : minList (t :: ps.filterMap (qualSel stopId now p.1))
            = combineMin (some t) (minList (ps.filterMap (qualSel stopId now p.1))) :=
          foldl_min_eq t _
        rw [hmin]
        unfold bestStep
        rw [hq]
        cases hg : mapGet m p.1 with
        | none =>
          rw [mapGet_mapSet_self]
          rfl
        | some prev =>
          have hprev : prev ≠ 0 := hm p.1 prev hg
          dsimp only
          by_cases hc : prev = 0 ∨ t < prev
          · rw [if_pos hc, mapGet_mapSet_self]
            have hlt : t < prev := hc.resolve_left hprev
            cases hQ : minList (ps.filterMap (qualSel stopId now p.1)) with
            | none =>
              simp only [combineMin]
              rw [min_eq_right (le_of_lt hlt)]
            | some mq =>
              simp only [combineMin]
              have hle : min t mq ≤ prev := le_trans (min_le_left t mq) (le_of_lt hlt)
              rw [← min_assoc, min_eq_right (le_of_lt hlt)]
          · rw [if_neg hc]
            push_neg at hc
            have hle : prev ≤ t := hc.2
            rw [hg]
            cases hQ : minList (ps.filterMap (qualSel stopId now p.1)) with
            | none =>
              simp only [combineMin]
              rw [min_eq_left hle]
            | some mq =>
              simp only [combineMin]
              rw [← min_assoc, min_eq_left hle]
      · have hf : List.filterMap (qualSel stopId now d) (p :: ps)
            = ps.filterMap (qualSel stopId now d) := by
          have : qualSel stopId now d p = none := by
            unfold qualSel
            rw [if_neg hd]
          rw [List.filterMap_cons_none this]
        rw [hf, mapGet_bestStep_ne stopId now m p d hd]

/-- The bucket map built by the loop holds, for every direction bucket,
exactly the minimum qualifying arrival epoch of that bucket (and no
entry when no arrival qualifies). -/
lemma mapGet_bestByDir (f : FeedMessage) (stopId : String) (now : Int) (d : Option Int) :
    mapGet (bestByDir f stopId now) d = minList (qualTimes f stopId now d) := by
  unfold bestByDir qualTimes
  rw [mapGet_foldl_bestStep stopId now (feedPairs f) []
    (fun k v h => Option.noConfusion h) d]
  rfl

/-! ### Claim theorems: the arrival ranker -/

/-- C4: for every stopId and every feed state, the sequence returned by
`nextArrivals` has length at most 2, is sorted by non-decreasing
`secondsAway`, and contains no entry with `secondsAway < 0`. -/
theorem nextArrivals_atMostTwo_sorted_nonneg
    (feedRes : Except String (Option FeedMessage)) (stopId : String) (now : Int) :
    (getNextArrivalsForStop feedRes stopId now).length ≤ 2 ∧
    (getNextArrivalsForStop feedRes stopId now).Pairwise
      (fun a b => a.secondsAway ≤ b.secondsAway) ∧
    ∀ a ∈ getNextArrivalsForStop feedRes stopId now, 0 ≤ a.secondsAway := by
  cases feedRes with
  | error e => simp [getNextArrivalsForStop, innerArrivals]
  | ok of =>
    cases of with
    | none => simp [getNextArrivalsForStop, innerArrivals]
    | some f =>
      have h := rankArrivals_shape f stopId now
      simpa [getNextArrivalsForStop, innerArrivals] using h

/-- C5: for every stopId and every feed state (including feeds with
missing fields), `nextArrivals` returns normally with a list and never
throws: its `Except`-valued rendering always yields `ok`, and an error
raised while obtaining the feed is converted to the empty list. -/
theorem nextArrivals_total_never_throws
    (feedRes : Except String (Option FeedMessage)) (stopId : String) (now : Int) :
    (∃ l : List Arrival, getNextArrivalsForStopE feedRes stopId now = .ok l) ∧
    (∀ e, innerArrivals feedRes stopId now = .error e →
      getNextArrivalsForStopE feedRes stopId now = .ok [] ∧
      getNextArrivalsForStop feedRes stopId now = []) := by
  constructor
  · cases h : innerArrivals feedRes stopId now with
    | ok l => exact ⟨l, by simp [getNextArrivalsForStopE, h]⟩
    | error e => exact ⟨[], by simp [getNextArrivalsForStopE, h]⟩
  · intro e he
    constructor
    · simp [getNextArrivalsForStopE, he]
    · simp [getNextArrivalsForStop, he]

/-- Witness for C5 at a concrete failing feed acquisition. -/
theorem nextArrivals_total_never_throws_witness :
    getNextArrivalsForStopE (.error "GTFS-RT fetch failed: 500") "8129" 1000 = .ok [] ∧
    getNextArrivalsForStop (.error "GTFS-RT fetch failed: 500") "8129" 1000 = [] :=
  (nextArrivals_total_never_throws (.error "GTFS-RT fetch failed: 500") "8129" 1000).2
    "GTFS-RT fetch failed: 500" rfl

/-- C6: the loop keeps, per direction bucket, exactly the minimum
qualifying arrival epoch (a `StopTimeUpdate` qualifies when its stop id
matches the query case-insensitively and its arrival time is present,
non-zero and not strictly before now); moreover the spec's two concrete
examples hold: two future TripUpdates for stop "S" (direction 0 in
120 s, direction 1 in 45 s) give `[{45, dir 1}, {120, dir 0}]`, and a
single matching update 10 s in the past gives `[]`. -/
theorem nextArrivals_min_per_direction_and_examples :
    (∀ (f : FeedMessage) (stopId : String) (now : Int) (d : Option Int),
      mapGet (bestByDir f stopId now) d = minList (qualTimes f stopId now d)) ∧
    getNextArrivalsForStop (.ok (some feedEx1)) "S" 1000 =
      [⟨1045, 45, "realtime", some 1⟩, ⟨1120, 120, "realtime", some 0⟩] ∧
    getNextArrivalsForStop (.ok (some feedEx2)) "S" 1000 = [] :=
  ⟨mapGet_bestByDir, by decide, by decide⟩

/-! ### Feed cache lemmas and claim theorems C2/C3 -/

lemma loadFeedOnce_fetchError_state (url : Option String) (ttl now : Int) (e : String)
    (decode : Bytes → Except String FeedMessage) (s : FeedState) :
    (loadFeedOnce url ttl now (.error e) decode s).2 = s := by
  cases url with
  | none => rfl
  | some u =>
    cases hc : s.feedCache with
    | none => simp [loadFeedOnce, hc]
    | some m =>
      simp only [loadFeedOnce, hc]
      by_cases hf : now - s.feedCacheTs < ttl
      · rw [if_pos hf]
      · rw [if_neg hf]

lemma loadFeedOnce_decodeError_state (url : Option String) (ttl now : Int) (bytes : Bytes)
    (e : String) (decode : Bytes → Except String FeedMessage) (s : FeedState)
    (hdec : decode bytes = .error e) :
    (loadFeedOnce url ttl now (.ok bytes) decode s).2.feedCache = s.feedCache ∧
    (loadFeedOnce url ttl now (.ok bytes) decode s).2.feedCacheTs = s.feedCacheTs := by
  cases url with
  | none => exact ⟨rfl, rfl⟩
  | some u =>
    cases hc : s.feedCache with
    | none => simp [loadFeedOnce, hc, hdec]
    | some m =>
      simp only [loadFeedOnce, hc]
      by_cases hf : now - s.feedCacheTs < ttl
      · rw [if_pos hf]
        exact ⟨hc, rfl⟩
      · rw [if_neg hf]
        simp [hdec, hc]

lemma refreshHandler_fetchError_state (url : Option String) (ttl now : Int) (e : String)
    (decode : Bytes → Except String FeedMessage) (s : FeedState) :
    (refreshHandler url ttl now (.error e) decode s).2.feedCache = none ∧
    (refreshHandler url ttl now (.error e) decode s).2.feedCacheTs = 0 := by
  cases url with
  | none => exact ⟨rfl, rfl⟩
  | some u => exact ⟨rfl, rfl⟩

/-- C2 (amended): a failed routine `loadFeed` refresh leaves the cached
snapshot untouched on fetch failure, and leaves the decoded message and
timestamp untouched (though it overwrites the raw bytes) on decode
failure; but `forceRefresh` (`POST /api/refresh`) destructively clears
the decoded message and timestamp before fetching, so after a forced
refresh whose fetch fails no decoded snapshot remains. -/
theorem refresh_failure_snapshot_behavior
    (url : Option String) (ttl now : Int) (e : String)
    (decode : Bytes → Except String FeedMessage) (s : FeedState) :
    (loadFeedOnce url ttl now (.error e) decode s).2 = s ∧
    (∀ bytes e2, decode bytes = .error e2 →
      (loadFeedOnce url ttl now (.ok bytes) decode s).2.feedCache = s.feedCache ∧
      (loadFeedOnce url ttl now (.ok bytes) decode s).2.feedCacheTs = s.feedCacheTs) ∧
    (refreshHandler url ttl now (.error e) decode s).2.feedCache = none ∧
    (refreshHandler url ttl now (.error e) decode s).2.feedCacheTs = 0 :=
  ⟨loadFeedOnce_fetchError_state url ttl now e decode s,
   fun bytes e2 h => loadFeedOnce_decodeError_state url ttl now bytes e2 decode s h,
   (refreshHandler_fetchError_state url ttl now e decode s).1,
   (refreshHandler_fetchError_state url ttl now e decode s).2⟩

/-- Witness for C2's amended theorem at a concrete decode failure. -/
theorem refresh_failure_snapshot_behavior_witness :
    (loadFeedOnce (some "u") 15000 20000 (.ok [2]) decodeFail
      ⟨some feedEx1, 100, some [1]⟩).2.feedCache
      = (FeedState.mk (some feedEx1) 100 (some [1])).feedCache ∧
    (loadFeedOnce (some "u") 15000 20000 (.ok [2]) decodeFail
      ⟨some feedEx1, 100, some [1]⟩).2.feedCacheTs
      = (FeedState.mk (some feedEx1) 100 (some [1])).feedCacheTs :=
  (refresh_failure_snapshot_behavior (some "u") 15000 20000 "down" decodeFail
    ⟨some feedEx1, 100, some [1]⟩).2.1 [2] "decode failure" rfl

/-- C2 counterexample: a forced refresh whose fetch fails evicts the
previously cached decoded snapshot — before the refresh the cache holds
a decoded message, afterwards `feedCache` is `none` (so `forceRefresh`
invalidates destructively, not merely logically). -/
theorem forceRefresh_destructive_counterexample :
    (refreshHandler (some "u") 15000 2000 (.error "down") decodeFail
      ⟨some feedEx1, 100, some [1]⟩).2.feedCache = none ∧
    (FeedState.mk (some feedEx1) 100 (some [1])).feedCache = some feedEx1 :=
  ⟨rfl, rfl⟩

/-- C3 counterexample: starting from an expired snapshot whose decoded
message and raw bytes both came from fetch #1 (bytes `[1]`), a new
fetch returning bytes `[2]` that fails to decode leaves raw bytes `[2]`
paired with the old decoded message — mixed provenance. -/
theorem mixed_snapshot_counterexample :
    (loadFeedOnce (some "u") 15000 20000 (.ok [2]) decodeFail
      ⟨some feedEx1, 100, some [1]⟩).2.feedCacheRaw = some [2] ∧
    (loadFeedOnce (some "u") 15000 20000 (.ok [2]) decodeFail
      ⟨some feedEx1, 100, some [1]⟩).2.feedCache = some feedEx1 ∧
    (FeedState.mk (some feedEx1) 100 (some [1])).feedCacheRaw = some [1] :=
  ⟨by decide, by decide, rfl⟩

/-- C3 (amended): when decoding succeeds, a cache-miss refresh installs
the decoded message, the raw bytes and the timestamp together, all from
the same fetch; mixed provenance can only arise from a decode failure. -/
theorem successfulRefresh_atomic (u : String) (ttl now : Int) (bytes : Bytes)
    (decode : Bytes → Except String FeedMessage) (m : FeedMessage) (s : FeedState)
    (hmiss : ∀ m0, s.feedCache = some m0 → ttl ≤ now - s.feedCacheTs)
    (hdec : decode bytes = .ok m) :
    loadFeedOnce (some u) ttl now (.ok bytes) decode s
      = (.ok (some m), ⟨some m, now, some bytes⟩) := by
  cases hc : s.feedCache with
  | none => simp [loadFeedOnce, hc, hdec]
  | some m0 =>
    have hnf : ¬ (now - s.feedCacheTs < ttl) := not_lt.mpr (hmiss m0 hc)
    simp [loadFeedOnce, hc, hnf, hdec]

/-- Witness for C3's amended theorem at a concrete successful refresh. -/
theorem successfulRefresh_atomic_witness :
    loadFeedOnce (some "u") 15000 2000 (.ok [1]) decodeEx ⟨none, 0, none⟩
      = (.ok (some feedEx1), ⟨some feedEx1, 2000, some [1]⟩) :=
  successfulRefresh_atomic "u" 15000 2000 [1] decodeEx feedEx1 ⟨none, 0, none⟩
    (fun _ h => Option.noConfusion h) rfl

/-! ### String order and sort lemmas for the stop resolver -/

lemma charListLe_total (as bs : List Char) (h : charListLe as bs = false) :
    charListLe bs as = true := by
  induction as generalizing bs with
  | nil => simp [charListLe] at h
  | cons a as ih =>
    cases bs with
    | nil => simp [charListLe]
    | cons b bs =>
      simp only [charListLe] at h ⊢
      by_cases hab : a < b
      · simp [hab] at h
      · by_cases hba : b < a
        · simp [hba]
        · simp only [if_neg hab, if_neg hba] at h
          simp only [if_neg hba, if_neg hab]
          exact ih bs h

lemma charListLe_trans (as bs cs : List Char) (h1 : charListLe as bs = true)
    (h2 : charListLe bs cs = true) : charListLe as cs = true := by
  induction as generalizing bs cs with
  | nil => simp [charListLe]
  | cons a as ih =>
    cases bs with
    | nil => simp [charListLe] at h1
    | cons b bs =>
      cases cs with
      | nil => simp [charListLe] at h2
      | cons c cs =>
        simp only [charListLe] at h1 h2 ⊢
        by_cases hab : a < b
        · by_cases hbc : b < c
          · simp [lt_trans hab hbc]
          · by_cases hcb : c < b
            · simp [hbc, hcb] at h2
            · have hbc' : b = c := le_antisymm (le_of_not_lt hcb) (le_of_not_lt hbc)
              subst hbc'
              simp [hab]
        · by_cases hba : b < a
          · simp [hab, hba] at h1
          · have hab' : a = b := le_antisymm (le_of_not_lt hba) (le_of_not_lt hab)
            subst hab'
            simp only [if_neg hab, if_neg hba] at h1
            by_cases hac : a < c
            · simp [hac]
            · by_cases hca : c < a
              · simp [hac, hca] at h2
              · simp only [if_neg hac, if_neg hca] at h2 ⊢
                exact ih bs cs h1 h2

lemma strLeB_of_not (a b : String) (h : ¬ strLeB b a = true) : strLeB a b = true := by
  have hf : strLeB b a = false := by
    cases hba : strLeB b a
    · rfl
    · exact absurd hba h
  exact charListLe_total b.data a.data hf

lemma strLeB_trans (a b c : String) (h1 : strLeB a b = true) (h2 : strLeB b c = true) :
    strLeB a c = true :=
  charListLe_trans a.data b.data c.data h1 h2

lemma mem_insertStr (a x : String) (l : List String) :
    x ∈ insertStr a l ↔ x = a ∨ x ∈ l := by
  induction l with
  | nil => simp [insertStr]
  | cons b bs ih =>
    simp only [insertStr]
    by_cases h : strLeB b a = true
    · rw [if_pos h]
      simp only [List.mem_cons, ih]
      tauto
    · rw [if_neg h]
      simp [List.mem_cons]

lemma insertStr_perm (a : String) (l : List String) : (insertStr a l).Perm (a :: l) := by
  induction l with
  | nil => exact List.Perm.refl _
  | cons b bs ih =>
    simp only [insertStr]
    by_cases h : strLeB b a = true
    · rw [if_pos h]
      exact (ih.cons b).trans (List.Perm.swap a b bs)
    · rw [if_neg h]

lemma foldl_insertStr_perm (l acc : List String) :
    (l.foldl (fun acc a => insertStr a acc) acc).Perm (acc ++ l) := by
  induction l generalizing acc with
  | nil => simp
  | cons a as ih =>
    simp only [List.foldl_cons]
    calc as.foldl (fun acc a => insertStr a acc) (insertStr a acc)
        |>.Perm (insertStr a acc ++ as) := ih _
      _ |>.Perm ((a :: acc) ++ as) := (insertStr_perm a acc).append_right as
      _ |>.Perm (acc ++ a :: as) := List.perm_middle.symm

lemma sortStrings_perm (l : List String) : (sortStrings l).Perm l := by
  have h := foldl_insertStr_perm l []
  simpa [sortStrings] using h

lemma sorted_insertStr (a : String) (l : List String)
    (hl : l.Pairwise (fun x y => strLeB x y = true)) :
    (insertStr a l).Pairwise (fun x y => strLeB x y = true) := by
  induction l with
  | nil => simp [insertStr]
  | cons b bs ih =>
    rcases List.pairwise_cons.mp hl with ⟨hb, hbs⟩
    simp only [insertStr]
    by_cases h : strLeB b a = true
    · rw [if_pos h]
      refine List.pairwise_cons.mpr ⟨?_, ih hbs⟩
      intro y hy
      rcases (mem_insertStr a y bs).mp hy with rfl | hy'
      · exact h
      · exact hb y hy'
    · rw [if_neg h]
      have hab : strLeB a b = true := strLeB_of_not a b h
      refine List.pairwise_cons.mpr ⟨?_, hl⟩
      intro y hy
      rcases List.mem_cons.mp hy with rfl | hy'
      · exact hab
      · exact strLeB_trans a b y hab (hb y hy')

lemma sorted_sortStrings (l : List String) :
    (sortStrings l).Pairwise (fun x y => strLeB x y = true) := by
  have h : ∀ (l acc : List String), acc.Pairwise (fun x y => strLeB x y = true) →
      (l.foldl (fun acc a => insertStr a acc) acc).Pairwise (fun x y => strLeB x y = true) := by
    intro l
    induction l with
    | nil => intro acc h; exact h
    | cons a as ih => intro acc hacc; exact ih _ (sorted_insertStr a acc hacc)
  exact h l [] List.Pairwise.nil

/-! ### Distinctness of the feed-derived stop ids -/

lemma nodup_addSid_fold (stus : List StopTimeUpdate) (acc : List String) (h : acc.Nodup) :
    (stus.foldl
      (fun acc2 stu =>
        match sidOf stu with
        | none => acc2
        | some sid => if sid ∈ acc2 then acc2 else acc2 ++ [sid]) acc).Nodup := by
  induction stus generalizing acc with
  | nil => exact h
  | cons stu stus ih =>
    simp only [List.foldl_cons]
    apply ih
    cases hs : sidOf stu with
    | none => simpa [hs] using h
    | some sid =>
      simp only [hs]
      by_cases hmem : sid ∈ acc
      · rw [if_pos hmem]
        exact h
      · rw [if_neg hmem]
        refine List.nodup_append.mpr ⟨h, List.nodup_singleton sid, ?_⟩
        intro x hx1 hx2
        rcases List.mem_singleton.mp hx2 with rfl
        exact hmem hx1

lemma nodup_collectStopIds (f : FeedMessage) : (collectStopIds f).Nodup := by
  unfold collectStopIds
  have h : ∀ (es : List Entity) (acc : List String), acc.Nodup →
      (es.foldl
        (fun acc e =>
          match e.tripUpdate with
          | none => acc
          | some tu =>
            tu.stopTimeUpdate.foldl
              (fun acc2 stu =>
                match sidOf stu with
                | none => acc2
                | some sid => if sid ∈ acc2 then acc2 else acc2 ++ [sid]) acc) acc).Nodup := by
    intro es
    induction es with
    | nil => intro acc h; exact h
    | cons e es ih =>
      intro acc hacc
      simp only [List.foldl_cons]
      apply ih
      cases hte : e.tripUpdate with
      | none => simpa [hte] using hacc
      | some tu =>
        simp only [hte]
        exact nodup_addSid_fold tu.stopTimeUpdate acc hacc
  exact h f.entity [] List.nodup_nil

lemma feedTier_ids (f : FeedMessage) :
    (feedTier f).map Stop.id = sortStrings (collectStopIds f) := by
  unfold feedTier
  rw [List.map_map]
  have h : (Stop.id ∘ fun id => (⟨id, id⟩ : Stop)) = fun id => id := rfl
  rw [h]
  exact List.map_id _

lemma feedTier_sorted_nodup_names (f : FeedMessage) :
    ((feedTier f).map Stop.id).Pairwise (fun a b => strLeB a b = true) ∧
    ((feedTier f).map Stop.id).Nodup ∧
    ∀ st ∈ feedTier f, st.name = st.id := by
  refine ⟨?_, ?_, ?_⟩
  · rw [feedTier_ids]
    exact sorted_sortStrings _
  · rw [feedTier_ids]
    exact ((sortStrings_perm (collectStopIds f)).nodup_iff).mpr (nodup_collectStopIds f)
  · intro st hst
    rcases List.mem_map.mp hst with ⟨id, _, rfl⟩
    rfl

/-! ### Claim theorems: the stop resolver -/

/-- C7: `resolveStops` never fails and always returns a non-empty list;
it returns the static-table rows whenever that tier yields at least one
(even if the feed is also available), else the feed-derived tier —
whose ids are distinct, sorted lexicographically and have `name = id` —
else the hardcoded fallback list. -/
theorem resolveStops_cascade (table : Option String)
    (feedRes : Except String (Option FeedMessage)) :
    resolveStopsFresh table feedRes ≠ [] ∧
    (∀ csv, table = some csv → staticTier csv ≠ [] →
      resolveStopsFresh table feedRes = staticTier csv) ∧
    (∀ f, tier1 table = [] → feedRes = .ok (some f) → feedTier f ≠ [] →
      resolveStopsFresh table feedRes = feedTier f) ∧
    (tier1 table = [] → tier2 feedRes = [] →
      resolveStopsFresh table feedRes = fallbackStops) ∧
    (∀ f, ((feedTier f).map Stop.id).Pairwise (fun a b => strLeB a b = true) ∧
      ((feedTier f).map Stop.id).Nodup ∧
      ∀ st ∈ feedTier f, st.name = st.id) := by
  refine ⟨?_, ?_, ?_, ?_, fun f => feedTier_sorted_nodup_names f⟩
  · unfold resolveStopsFresh
    by_cases h1 : tier1 table ≠ []
    · rw [if_pos h1]
      exact h1
    · rw [if_neg h1]
      by_cases h2 : tier2 feedRes ≠ []
      · rw [if_pos h2]
        exact h2
      · rw [if_neg h2]
        simp [fallbackStops]
  · intro csv hcsv hne
    subst hcsv
    unfold resolveStopsFresh
    have h1 : tier1 (some csv) = staticTier csv := rfl
    rw [h1, if_pos hne]
  · intro f h1 hfeed hne
    subst hfeed
    unfold resolveStopsFresh
    have h2 : tier2 (.ok (some f)) = feedTier f := rfl
    rw [h1, h2, if_neg (fun hc => hc rfl), if_pos hne]
  · intro h1 h2
    unfold resolveStopsFresh
    rw [h1, h2, if_neg (fun hc => hc rfl), if_neg (fun hc => hc rfl)]

/-- Witness for C7 at concrete inputs: a table with one platform row
wins over an available feed; without a table the feed tier is used;
with neither, the fallback list is returned. -/
theorem resolveStops_cascade_witness :
    resolveStopsFresh (some csvEx) (.ok (some feedStops)) = staticTier csvEx ∧
    resolveStopsFresh none (.ok (some feedStops)) = feedTier feedStops ∧
    resolveStopsFresh none (.error "down") = fallbackStops :=
  ⟨(resolveStops_cascade (some csvEx) (.ok (some feedStops))).2.1 csvEx rfl (by decide),
   (resolveStops_cascade none (.ok (some feedStops))).2.2.1 feedStops rfl rfl (by decide),
   (resolveStops_cascade none (.error "down")).2.2.2.1 rfl rfl⟩

/-- C8: with no upstream URL configured, `getFeed()` returns `null`
(not a failure) and leaves the state untouched on every call,
`nextArrivals` returns `[]` for every stop, and `resolveStops` (with no
static table present) still returns the non-empty fallback list. -/
theorem notConfigured_steady_state (ttl now : Int) (fetchRes : Except String Bytes)
    (decode : Bytes → Except String FeedMessage) (s : FeedState) (stopId : String) :
    loadFeedOnce none ttl now fetchRes decode s = (.ok none, s) ∧
    getNextArrivalsForStop (loadFeedOnce none ttl now fetchRes decode s).1 stopId now = [] ∧
    resolveStopsFresh none (loadFeedOnce none ttl now fetchRes decode s).1 = fallbackStops ∧
    fallbackStops ≠ [] := by
  refine ⟨rfl, rfl, ?_, by simp [fallbackStops]⟩
  have h := (resolveStops_cascade none
    ((loadFeedOnce none ttl now fetchRes decode s).1)).2.2.2.1 rfl
  apply h
  rfl

/-! ### Quote-stripping decomposition and case-insensitivity (C9) -/

lemma dropTrailingQuote_spec (l : List Char) :
    l = dropTrailingQuote l ++ ['\x22'] ∨ l = dropTrailingQuote l := by
  unfold dropTrailingQuote
  by_cases h : l.getLast? = some '\x22'
  · rw [if_pos h]
    left
    have hmem : '\x22' ∈ l.getLast? := Option.mem_def.mpr h
    exact (List.dropLast_append_getLast? '\x22' hmem).symm
  · rw [if_neg h]
    right
    rfl

lemma dropLeadingQuote_spec (l : List Char) :
    l = '\x22' :: dropLeadingQuote l ∨ l = dropLeadingQuote l := by
  unfold dropLeadingQuote
  split
  · exact Or.inl rfl
  · exact Or.inr rfl

lemma stripQuotes_decomposition (s : String) :
    ∃ a b : Bool, s.data = (if a then ['\x22'] else []) ++ (stripQuotes s).data
      ++ (if b then ['\x22'] else []) := by
  have hdata : (stripQuotes s).data = dropTrailingQuote (dropLeadingQuote s.data) := rfl
  rcases dropTrailingQuote_spec (dropLeadingQuote s.data) with ht | ht <;>
    rcases dropLeadingQuote_spec s.data with hl | hl
  · refine ⟨true, true, ?_⟩
    rw [hdata]
    calc s.data = '\x22' :: dropLeadingQuote s.data := hl
      _ = '\x22' :: (dropTrailingQuote (dropLeadingQuote s.data) ++ ['\x22']) :=
        congrArg (List.cons '\x22') ht
      _ = _ := by simp
  · refine ⟨false, true, ?_⟩
    rw [hdata]
    calc s.data = dropLeadingQuote s.data := hl
      _ = dropTrailingQuote (dropLeadingQuote s.data) ++ ['\x22'] := ht
      _ = _ := by simp
  · refine ⟨true, false, ?_⟩
    rw [hdata]
    calc s.data = '\x22' :: dropLeadingQuote s.data := hl
      _ = '\x22' :: dropTrailingQuote (dropLeadingQuote s.data) :=
        congrArg (List.cons '\x22') ht
      _ = _ := by simp
  · refine ⟨false, false, ?_⟩
    rw [hdata]
    calc s.data = dropLeadingQuote s.data := hl
      _ = dropTrailingQuote (dropLeadingQuote s.data) := ht
      _ = _ := by simp

lemma stuQualifies_congr (q1 q2 : String) (h : jsToUpper q1 = jsToUpper q2)
    (now : Int) (stu : StopTimeUpdate) :
    stuQualifies q1 now stu = stuQualifies q2 now stu := by
  unfold stuQualifies
  rw [h]

lemma bestStep_congr (q1 q2 : String) (h : jsToUpper q1 = jsToUpper q2) (now : Int) :
    bestStep q1 now = bestStep q2 now := by
  funext m p
  unfold bestStep
  rw [stuQualifies_congr q1 q2 h now p.2]

lemma nextArrivals_congr (feedRes : Except String (Option FeedMessage)) (q1 q2 : String)
    (now : Int) (h : jsToUpper q1 = jsToUpper q2) :
    getNextArrivalsForStop feedRes q1 now = getNextArrivalsForStop feedRes q2 now := by
  cases feedRes with
  | error e => rfl
  | ok of =>
    cases of with
    | none => rfl
    | some f =>
      have hb : bestByDir f q1 now = bestByDir f q2 now := by
        unfold bestByDir
        rw [bestStep_congr q1 q2 h now]
      show rankArrivals f q1 now = rankArrivals f q2 now
      unfold rankArrivals
      rw [hb]

/-- C9: stop ids produced by the static-table tier keep their original
casing — each returned id is its source cell with only a surrounding
quote removed on either side — while stop-id matching in `nextArrivals`
is case-insensitive: queries equal up to ASCII case give identical
results. -/
theorem casing_roundtrip :
    (∀ (csv : String) (st : Stop), st ∈ staticTier csv →
      ∃ cell : String, st.id = stripQuotes cell ∧
        ∃ a b : Bool, cell.data
          = (if a then ['\x22'] else []) ++ st.id.data ++ (if b then ['\x22'] else [])) ∧
    (∀ (feedRes : Except String (Option FeedMessage)) (q1 q2 : String) (now : Int),
      jsToUpper q1 = jsToUpper q2 →
      getNextArrivalsForStop feedRes q1 now = getNextArrivalsForStop feedRes q2 now) := by
  constructor
  · intro csv st hst
    unfold staticTier at hst
    rcases hsf : splitFeedLines csv with _ | ⟨header, rest⟩
    · rw [hsf] at hst
      simp at hst
    · rw [hsf] at hst
      dsimp only at hst
      by_cases hh : listStartsWith "stop_id".data (jsToLower header).data = true
      · rw [if_pos hh] at hst
        rcases List.mem_map.mp hst with ⟨r, _, hreq⟩
        have hid : st.id = stripQuotes (r.getD 0 "") := by rw [← hreq]
        rcases stripQuotes_decomposition (r.getD 0 "") with ⟨a, b, hab⟩
        exact ⟨r.getD 0 "", hid, a, b, by rw [hid]; exact hab⟩
      · rw [if_neg hh] at hst
        cases hst
  · exact fun feedRes q1 q2 now h => nextArrivals_congr feedRes q1 q2 now h

/-- Witness for C9: the id "8129" from the concrete table is returned
verbatim, and querying "s" or "S" gives the same arrivals. -/
theorem casing_roundtrip_witness :
    (∃ cell : String, (Stop.mk "8129" "Alinga Street").id = stripQuotes cell ∧
      ∃ a b : Bool, cell.data = (if a then ['\x22'] else [])
        ++ (Stop.mk "8129" "Alinga Street").id.data ++ (if b then ['\x22'] else [])) ∧
    getNextArrivalsForStop (.ok (some feedEx1)) "s" 1000
      = getNextArrivalsForStop (.ok (some feedEx1)) "S" 1000 :=
  ⟨casing_roundtrip.1 csvEx ⟨"8129", "Alinga Street"⟩ (by decide),
   casing_roundtrip.2 (.ok (some feedEx1)) "s" "S" 1000 (by decide)⟩

/-! ### Claim theorem: the stops cache (C10) -/

/-- C10: every resolution path of `loadStops` (the fallback tier
included) stores its result in the cache with the timestamp read at
entry; any later call within the 24-hour stops TTL returns that cached
list with the state unchanged, regardless of what the table or feed
would now yield. -/
theorem stopsCache_store_and_hit
    (table table2 : Option String) (feedRes feedRes2 : Except String (Option FeedMessage))
    (now now2 : Int) (s : StopsState)
    (hmiss : s.stopsCache = none ∨ STOPS_TTL_MS ≤ now - s.stopsCacheTs)
    (hfresh : now2 - now < STOPS_TTL_MS) :
    (loadStopsOnce table feedRes now s).2
      = ⟨some (resolveStopsFresh table feedRes), now⟩ ∧
    loadStopsOnce table2 feedRes2 now2 (loadStopsOnce table feedRes now s).2
      = (resolveStopsFresh table feedRes, (loadStopsOnce table feedRes now s).2) := by
  have h1 : (loadStopsOnce table feedRes now s).2
      = ⟨some (resolveStopsFresh table feedRes), now⟩ := by
    cases hc : s.stopsCache with
    | none => simp [loadStopsOnce, hc]
    | some l =>
      rcases hmiss with h | h
      · rw [hc] at h
        cases h
      · simp [loadStopsOnce, hc, not_lt.mpr h]
  refine ⟨h1, ?_⟩
  rw [h1]
  simp [loadStopsOnce, hfresh]

/-- Witness for C10 on the fallback path: a cold call with no table and
a failing feed stores the fallback result at time 1000, and a second
call at time 2000 with both sources now available still returns it. -/
theorem stopsCache_store_and_hit_witness :
    (loadStopsOnce none (.error "down") 1000 ⟨none, 0⟩).2
      = ⟨some (resolveStopsFresh none (.error "down")), 1000⟩ ∧
    loadStopsOnce (some csvEx) (.ok (some feedStops)) 2000
        (loadStopsOnce none (.error "down") 1000 ⟨none, 0⟩).2
      = (resolveStopsFresh none (.error "down"),
         (loadStopsOnce none (.error "down") 1000 ⟨none, 0⟩).2) :=
  stopsCache_store_and_hit none (some csvEx) (.error "down") (.ok (some feedStops))
    1000 2000 ⟨none, 0⟩ (Or.inl rfl) (by decide)

/-! ### Claim theorems: concurrency of the feed refresh (C1) -/

lemma countP_set (l : List ThreadPC) (i : Nat) (pc pc2 : ThreadPC)
    (h : l.get? i = some pc) :
    (l.set i pc2).countP isStart + (if isStart pc then 1 else 0)
      = l.countP isStart + (if isStart pc2 then 1 else 0) := by
  induction l generalizing i with
  | nil => cases h
  | cons a as ih =>
    cases i with
    | zero =>
      have ha : a = pc := by
        have : some a = some pc := h
        cases this
        rfl
      subst ha
      simp only [List.set, List.countP_cons]
      omega
    | succ j =>
      have h' : as.get? j = some pc := h
      simp only [List.set, List.countP_cons]
      have := ih j h'
      omega

lemma stepThread_mu (env : LoadEnv) (st : FeedState) (cnt : Nat) (pc : ThreadPC) :
    (stepThread env st cnt pc).2.2
      + (if isStart (stepThread env st cnt pc).1 then 1 else 0)
      ≤ cnt + (if isStart pc then 1 else 0) := by
  cases pc with
  | start =>
    unfold stepThread
    cases hu : env.url with
    | none => simp [isStart]
    | some u =>
      cases hc : st.feedCache with
      | some m =>
        dsimp only
        by_cases hf : env.now - st.feedCacheTs < env.ttl
        · simp [hf, isStart]
        · simp [hf, isStart]
      | none => simp [isStart]
  | awaitFetch =>
    unfold stepThread
    cases hr : env.fetchRes with
    | error e => simp [isStart]
    | ok bytes =>
      cases hd : env.decode bytes with
      | error e => simp [hd, isStart]
      | ok m => simp [hd, isStart]
  | done r => simp [stepThread, isStart]

lemma muSys_stepAt (env : LoadEnv) (sys : Sys) (i : Nat) :
    muSys (stepAt env sys i) ≤ muSys sys := by
  unfold stepAt
  cases hg : sys.threads.get? i with
  | none => exact le_refl _
  | some pc =>
    have hth := stepThread_mu env sys.st sys.fetchCount pc
    have hcp := countP_set sys.threads i pc
      ((stepThread env sys.st sys.fetchCount pc).1) hg
    unfold muSys
    dsimp only
    omega

lemma muSys_runSched (env : LoadEnv) (sched : List Nat) :
    ∀ sys : Sys, muSys (runSched env sched sys) ≤ muSys sys := by
  induction sched with
  | nil => intro sys; exact le_refl _
  | cons i is ih =>
    intro sys
    exact le_trans (ih (stepAt env sys i)) (muSys_stepAt env sys i)

/-- C1 (amended): `loadFeed` performs no single-flight coalescing —
each caller that passes the expired-cache check issues its own fetch.
What does hold is a per-caller bound: over any interleaving, the number
of upstream fetches grows by at most one per caller that had not yet
run (so N concurrent callers can cause up to N fetches, not one). -/
theorem concurrent_fetch_bound (env : LoadEnv) (sched : List Nat) (sys : Sys) :
    (runSched env sched sys).fetchCount
      ≤ sys.fetchCount + sys.threads.countP isStart := by
  have h := muSys_runSched env sched sys
  unfold muSys at h
  omega

/-- C1 counterexample: two concurrent callers of `loadFeed` on an
expired cache, interleaved so both pass the cache check before either
fetch resolves (schedule t0, t1, t0, t1), perform exactly two upstream
fetches — not one — and both run to completion. -/
theorem singleFlight_counterexample :
    (runSched envEx [0, 1, 0, 1] sysEx).fetchCount = 2 ∧
    (runSched envEx [0, 1, 0, 1] sysEx).threads.all isDone = true ∧
    (2 : Nat) ≠ 1 :=
  ⟨rfl, rfl, by decide⟩

end CbrTram
